import Mathlib

/-!
Verification development for the MRI Analysis Studio pipeline core
(analysis ledger, skip policy, run recorder, node executor, derivative GC).

The Python source is shallowly embedded: a filesystem path is a list of
characters, `os.path.isfile` is an oracle `PathStr → Bool`, the process
working directory is an explicit parameter, timestamps and error texts are
explicit arguments, and the opaque node functions are oracles telling
whether the computation raised.  `pathlib.Path.resolve` is modelled for a
symlink-free POSIX filesystem: making the path absolute against the working
directory and lexically eliminating empty, `.` and `..` segments.
-/

namespace MRIStudio

/-- A filesystem path, character by character (Python `str`). -/
abbrev PathStr := List Char

/-- Python `str.split('/')`: split a path at every slash, keeping empty pieces. -/
def splitOnSlash : PathStr → List PathStr
  | [] => [[]]
  | c :: cs =>
    let r := splitOnSlash cs
    if c = '/' then [] :: r
    else
      match r with
      | [] => [[c]]
      | s :: rest => (c :: s) :: rest

/-- Inverse of `splitOnSlash`: join segments with slashes. -/
def intercalateSlash : List PathStr → PathStr
  | [] => []
  | [s] => s
  | s :: s2 :: rest => s ++ '/' :: intercalateSlash (s2 :: rest)

/-- A segment that `resolve` keeps for further processing: non-empty and not `.`. -/
def isRealSeg (s : PathStr) : Bool := s ≠ [] && s ≠ ['.']

/-- The meaningful segments of a path. -/
def segsOf (p : PathStr) : List PathStr := (splitOnSlash p).filter isRealSeg

/-- Lexical elimination of `..` segments, as `Path.resolve` does for a
symlink-free filesystem (popping at the root stays at the root). -/
def resolveSegs (acc : List PathStr) : List PathStr → List PathStr
  | [] => acc
  | s :: rest =>
    if s = ['.', '.'] then resolveSegs acc.dropLast rest
    else resolveSegs (acc ++ [s]) rest

/-- Whether a path is absolute (starts with a slash). -/
def isAbsPath : PathStr → Bool
  | [] => false
  | c :: _ => c = '/'

/-- `pathlib.Path(p).resolve()` on a symlink-free POSIX filesystem:
absolutize against the working directory `cwd` (given as its segment list)
and normalize. -/
def resolvePath (cwd : List PathStr) (p : PathStr) : PathStr :=
  '/' :: intercalateSlash (resolveSegs (if isAbsPath p then [] else cwd) (segsOf p))

/-- `.replace('\\', '/')` from `check_path_format`. -/
def replaceBackslash (p : PathStr) : PathStr :=
  p.map (fun c => if c = '\\' then '/' else c)

/-- `check_path_format` (src/optinist/api/utils/check_path_format.py) on a
single path: `str(pathlib.Path(path).resolve()).replace('\\', '/')`. -/
def checkPathFormatCore (cwd : List PathStr) (p : PathStr) : PathStr :=
  replaceBackslash (resolvePath cwd p)

/-- `check_path_format` on a list of paths (the `isinstance(path_list, list)`
branch of the source). -/
def check_path_format_list (cwd : List PathStr) (ps : List PathStr) : List PathStr :=
  ps.map (checkPathFormatCore cwd)

/-- A well-formed path segment: what `resolve` can leave in a canonical path. -/
def wfSeg (s : PathStr) : Prop :=
  s ≠ [] ∧ s ≠ ['.'] ∧ s ≠ ['.', '.'] ∧ '/' ∉ s ∧ '\\' ∉ s

/-- A well-formed working directory: all segments well-formed. -/
def wfCwd (cwd : List PathStr) : Prop := ∀ s ∈ cwd, wfSeg s

theorem splitOnSlash_ne_nil (p : PathStr) : splitOnSlash p ≠ [] := by
  cases p with
  | nil => simp [splitOnSlash]
  | cons c cs =>
    simp only [splitOnSlash]
    split
    · simp
    · match h : splitOnSlash cs with
      | [] => simp
      | s :: rest => simp

theorem not_slash_mem_of_mem_splitOnSlash {p : PathStr} {s : PathStr}
    (h : s ∈ splitOnSlash p) : '/' ∉ s := by
  induction p generalizing s with
  | nil =>
    simp only [splitOnSlash, List.mem_singleton] at h
    subst h; simp
  | cons c cs ih =>
    simp only [splitOnSlash] at h
    by_cases hc : c = '/'
    · simp [hc] at h
      rcases h with h | h
      · subst h; simp
      · exact ih h
    · simp [hc] at h
      match hsp : splitOnSlash cs with
      | [] => exact absurd hsp (splitOnSlash_ne_nil cs)
      | t :: rest =>
        rw [hsp] at h
        simp at h
        rcases h with h | h
        · subst h
          intro hmem
          rcases List.mem_cons.mp hmem with h1 | h1
          · exact hc h1.symm
          · have := ih (s := t) (by rw [hsp]; exact List.mem_cons_self t rest)
            exact this h1
        · exact ih (by rw [hsp]; exact List.mem_cons_of_mem t h)

theorem mem_of_mem_splitOnSlash {p : PathStr} {s : PathStr} {c : Char}
    (h : s ∈ splitOnSlash p) (hc : c ∈ s) : c ∈ p := by
  induction p generalizing s with
  | nil =>
    simp only [splitOnSlash, List.mem_singleton] at h
    subst h; simp at hc
  | cons a cs ih =>
    simp only [splitOnSlash] at h
    by_cases ha : a = '/'
    · simp [ha] at h
      rcases h with h | h
      · subst h; simp at hc
      · exact List.mem_cons_of_mem a (ih h hc)
    · simp [ha] at h
      match hsp : splitOnSlash cs with
      | [] => exact absurd hsp (splitOnSlash_ne_nil cs)
      | t :: rest =>
        rw [hsp] at h
        simp at h
        rcases h with h | h
        · subst h
          rcases List.mem_cons.mp hc with h1 | h1
          · exact h1 ▸ List.mem_cons_self a cs
          · exact List.mem_cons_of_mem a
              (ih (by rw [hsp]; exact List.mem_cons_self t rest) h1)
        · exact List.mem_cons_of_mem a (ih (by rw [hsp]; exact List.mem_cons_of_mem t h) hc)

theorem splitOnSlash_no_slash {s : PathStr} (h : '/' ∉ s) : splitOnSlash s = [s] := by
  induction s with
  | nil => simp [splitOnSlash]
  | cons c cs ih =>
    have hc : c ≠ '/' := fun hcc => h (hcc ▸ List.mem_cons_self c cs)
    have hcs : '/' ∉ cs := fun hmem => h (List.mem_cons_of_mem c hmem)
    simp only [splitOnSlash, ih hcs]
    simp [hc]

theorem splitOnSlash_append_slash {s t : PathStr} (h : '/' ∉ s) :
    splitOnSlash (s ++ '/' :: t) = s :: splitOnSlash t := by
  induction s with
  | nil => simp [splitOnSlash]
  | cons c cs ih =>
    have hc : c ≠ '/' := fun hcc => h (hcc ▸ List.mem_cons_self c cs)
    have hcs : '/' ∉ cs := fun hmem => h (List.mem_cons_of_mem c hmem)
    simp only [List.cons_append, splitOnSlash, List.append_eq]
    rw [ih hcs]
    simp [hc]

theorem splitOnSlash_intercalate {segs : List PathStr}
    (h : ∀ s ∈ segs, '/' ∉ s) (hne : segs ≠ []) :
    splitOnSlash (intercalateSlash segs) = segs := by
  induction segs with
  | nil => exact absurd rfl hne
  | cons s rest ih =>
    cases rest with
    | nil =>
      simp only [intercalateSlash]
      exact splitOnSlash_no_slash (h s (List.mem_cons_self s []))
    | cons s2 rest2 =>
      simp only [intercalateSlash]
      rw [splitOnSlash_append_slash (h s (List.mem_cons_self s _))]
      rw [ih (fun x hx => h x (List.mem_cons_of_mem s hx)) (by simp)]

theorem resolveSegs_no_dotdot {segs : List PathStr} (acc : List PathStr)
    (h : ∀ s ∈ segs, s ≠ ['.', '.']) : resolveSegs acc segs = acc ++ segs := by
  induction segs generalizing acc with
  | nil => simp [resolveSegs]
  | cons s rest ih =>
    simp only [resolveSegs]
    rw [if_neg (h s (List.mem_cons_self s rest))]
    rw [ih (acc ++ [s]) (fun x hx => h x (List.mem_cons_of_mem s hx))]
    simp

theorem mem_resolveSegs {segs acc : List PathStr} {s : PathStr}
    (h : s ∈ resolveSegs acc segs) :
    s ∈ acc ∨ (s ∈ segs ∧ s ≠ ['.', '.']) := by
  induction segs generalizing acc with
  | nil => exact Or.inl h
  | cons t rest ih =>
    simp only [resolveSegs] at h
    by_cases ht : t = ['.', '.']
    · rw [if_pos ht] at h
      rcases ih h with h1 | h1
      · exact Or.inl ((List.dropLast_sublist acc).subset h1)
      · exact Or.inr ⟨List.mem_cons_of_mem t h1.1, h1.2⟩
    · rw [if_neg ht] at h
      rcases ih h with h1 | h1
      · rcases List.mem_append.mp h1 with h2 | h2
        · exact Or.inl h2
        · simp at h2
          subst h2
          exact Or.inr ⟨List.mem_cons_self s rest, ht⟩
      · exact Or.inr ⟨List.mem_cons_of_mem t h1.1, h1.2⟩

theorem mem_intercalateSlash {segs : List PathStr} {c : Char}
    (h : c ∈ intercalateSlash segs) : c = '/' ∨ ∃ s ∈ segs, c ∈ s := by
  induction segs with
  | nil => simp [intercalateSlash] at h
  | cons s rest ih =>
    cases rest with
    | nil =>
      simp only [intercalateSlash] at h
      exact Or.inr ⟨s, List.mem_cons_self s [], h⟩
    | cons s2 rest2 =>
      simp only [intercalateSlash] at h
      rcases List.mem_append.mp h with h1 | h1
      · exact Or.inr ⟨s, List.mem_cons_self s _, h1⟩
      · rcases List.mem_cons.mp h1 with h2 | h2
        · exact Or.inl h2
        · rcases ih h2 with h3 | ⟨t, ht, hc⟩
          · exact Or.inl h3
          · exact Or.inr ⟨t, List.mem_cons_of_mem s ht, hc⟩

theorem replaceBackslash_eq_self {p : PathStr} (h : '\\' ∉ p) :
    replaceBackslash p = p := by
  induction p with
  | nil => rfl
  | cons c cs ih =>
    have hc : c ≠ '\\' := fun hcc => h (hcc ▸ List.mem_cons_self c cs)
    have hcs : '\\' ∉ cs := fun hmem => h (List.mem_cons_of_mem c hmem)
    simp only [replaceBackslash, List.map_cons]
    rw [if_neg hc]
    have := ih hcs
    simp only [replaceBackslash] at this
    rw [this]

theorem segsOf_mem_wf {p : PathStr} (hp : '\\' ∉ p) {s : PathStr}
    (h : s ∈ segsOf p) : s ≠ [] ∧ s ≠ ['.'] ∧ '/' ∉ s ∧ '\\' ∉ s := by
  simp only [segsOf, List.mem_filter] at h
  obtain ⟨hmem, hreal⟩ := h
  simp only [isRealSeg, Bool.and_eq_true, decide_eq_true_eq, ne_eq] at hreal
  refine ⟨by simpa using hreal.1, by simpa using hreal.2,
    not_slash_mem_of_mem_splitOnSlash hmem, ?_⟩
  intro hback
  exact hp (mem_of_mem_splitOnSlash hmem hback)

theorem resolvePath_segs_wf {cwd : List PathStr} {p : PathStr}
    (hcwd : wfCwd cwd) (hp : '\\' ∉ p) {s : PathStr}
    (h : s ∈ resolveSegs (if isAbsPath p then [] else cwd) (segsOf p)) : wfSeg s := by
  rcases mem_resolveSegs h with h1 | ⟨h1, h2⟩
  · split at h1
    · simp at h1
    · exact hcwd s h1
  · obtain ⟨hne, hdot, hslash, hback⟩ := segsOf_mem_wf hp h1
    exact ⟨hne, hdot, h2, hslash, hback⟩

theorem resolvePath_no_backslash {cwd : List PathStr} {p : PathStr}
    (hcwd : wfCwd cwd) (hp : '\\' ∉ p) : '\\' ∉ resolvePath cwd p := by
  simp only [resolvePath]
  intro hmem
  rcases List.mem_cons.mp hmem with h | h
  · exact absurd h.symm (by decide)
  · rcases mem_intercalateSlash h with h1 | ⟨s, hs, hc⟩
    · exact absurd h1.symm (by decide)
    · exact (resolvePath_segs_wf hcwd hp hs).2.2.2.2 hc

theorem segsOf_slash_cons (x : PathStr) :
    segsOf ('/' :: x) = segsOf x := by
  simp only [segsOf, splitOnSlash]
  simp [isRealSeg]

theorem segsOf_intercalate {segs : List PathStr}
    (h : ∀ s ∈ segs, wfSeg s) : segsOf (intercalateSlash segs) = segs := by
  cases hsegs : segs with
  | nil => simp [intercalateSlash, segsOf, splitOnSlash, isRealSeg]
  | cons s rest =>
    subst hsegs
    simp only [segsOf]
    rw [splitOnSlash_intercalate (fun s hs => (h s hs).2.2.2.1) (by simp)]
    rw [List.filter_eq_self.mpr]
    intro s hs
    simp only [isRealSeg, Bool.and_eq_true, decide_eq_true_eq, ne_eq]
    exact ⟨by simpa using (h s hs).1, by simpa using (h s hs).2.1⟩

theorem resolvePath_canonical {cwd : List PathStr} {p : PathStr}
    (hcwd : wfCwd cwd) (hp : '\\' ∉ p) :
    resolvePath cwd (resolvePath cwd p) = resolvePath cwd p := by
  set R := resolveSegs (if isAbsPath p then [] else cwd) (segsOf p) with hR
  have hwf : ∀ s ∈ R, wfSeg s := fun s hs => resolvePath_segs_wf hcwd hp hs
  have habs : isAbsPath (resolvePath cwd p) = true := by
    simp [resolvePath, isAbsPath]
  simp only [resolvePath] at habs ⊢
  rw [if_pos habs]
  rw [segsOf_slash_cons, segsOf_intercalate hwf]
  rw [resolveSegs_no_dotdot [] (fun s hs => (hwf s hs).2.2.1)]
  simp

theorem checkPathFormatCore_idem {cwd : List PathStr} {p : PathStr}
    (hcwd : wfCwd cwd) (hp : '\\' ∉ p) :
    checkPathFormatCore cwd (checkPathFormatCore cwd p) = checkPathFormatCore cwd p := by
  have h1 : checkPathFormatCore cwd p = resolvePath cwd p :=
    replaceBackslash_eq_self (resolvePath_no_backslash hcwd hp)
  rw [h1]
  simp only [checkPathFormatCore]
  rw [resolvePath_canonical hcwd hp]
  exact replaceBackslash_eq_self (resolvePath_no_backslash hcwd hp)

/-! Association lists model Python dicts: lookup by key, assignment replaces
the value in place for an existing key and appends a new key at the end. -/

/-- Python `d[k]` / `k in d`. -/
def lookupAssoc {α β : Type} [DecidableEq α] : List (α × β) → α → Option β
  | [], _ => none
  | (k, v) :: rest, a => if k = a then some v else lookupAssoc rest a

/-- Python `d[k] = v`. -/
def setAssoc {α β : Type} [DecidableEq α] : List (α × β) → α → β → List (α × β)
  | [], a, b => [(a, b)]
  | (k, v) :: rest, a, b =>
    if k = a then (a, b) :: rest else (k, v) :: setAssoc rest a b

theorem lookupAssoc_setAssoc_self {α β : Type} [DecidableEq α]
    (m : List (α × β)) (a : α) (b : β) : lookupAssoc (setAssoc m a b) a = some b := by
  induction m with
  | nil => simp [setAssoc, lookupAssoc]
  | cons kv rest ih =>
    obtain ⟨k, v⟩ := kv
    by_cases h : k = a
    · simp [setAssoc, h, lookupAssoc]
    · simp [setAssoc, h, lookupAssoc, ih]

theorem lookupAssoc_setAssoc_ne {α β : Type} [DecidableEq α]
    (m : List (α × β)) (a c : α) (b : β) (h : c ≠ a) :
    lookupAssoc (setAssoc m a b) c = lookupAssoc m c := by
  induction m with
  | nil =>
    simp only [setAssoc, lookupAssoc]
    rw [if_neg (fun hh => h hh.symm)]
  | cons kv rest ih =>
    obtain ⟨k, v⟩ := kv
    simp only [setAssoc]
    by_cases hk : k = a
    · subst hk
      simp only [if_pos rfl, lookupAssoc]
      rw [if_neg (fun hh => h hh.symm), if_neg (fun hh => h hh.symm)]
    · rw [if_neg hk]
      simp only [lookupAssoc]
      by_cases hc : k = c
      · rw [if_pos hc, if_pos hc]
      · rw [if_neg hc, if_neg hc]
        exact ih

/-- `NodeAnalysisType` (analysis_info.py lines 9-23). -/
inductive NodeAnalysisType where
  | UNDEFINED | ALIGNMENT | SEGMENT1 | MASKING | SEGMENT2 | DARTEL
  | NORMALIZATION | SMOOTHING | TOTAL_BRAIN_VOLUME | STATS_MODELING
  | STATS_ANALYSIS | STATS_VISUALIZATION
deriving DecidableEq

/-- `AnalysisStatus` (analysis_info.py lines 26-35).  In the source,
`ERROR = 'failure'` and `PREVIOUS_ERROR = 'failure'` carry the same value, so
Python's `Enum` machinery makes `PREVIOUS_ERROR` an alias of the member
`ERROR`: the class has six distinct members and `AnalysisStatus.PREVIOUS_ERROR
is AnalysisStatus.ERROR` holds.  The inductive below has the six members;
the alias is the definition `AnalysisStatus.PREVIOUS_ERROR` following it. -/
inductive AnalysisStatus where
  | UNKNOWN | WAIT | PROCESSING | PROCESSED | ERROR | SKIPPED
deriving DecidableEq

/-- The alias member: `PREVIOUS_ERROR = 'failure'` repeats the value of
`ERROR`, so it denotes the same enum member. -/
def AnalysisStatus.PREVIOUS_ERROR : AnalysisStatus := AnalysisStatus.ERROR

/-- `.value` of each `AnalysisStatus` member. -/
def AnalysisStatus.value : AnalysisStatus → String
  | .UNKNOWN => "unknown"
  | .WAIT => "waiting"
  | .PROCESSING => "processing"
  | .PROCESSED => "success"
  | .ERROR => "failure"
  | .SKIPPED => "skipped"

/-- The raw `name = value` lines of the `AnalysisStatus` class body, in
source order. -/
def analysisStatusDecl : List (String × String) :=
  [("UNKNOWN", "unknown"), ("WAIT", "waiting"), ("PROCESSING", "processing"),
   ("PROCESSED", "success"), ("ERROR", "failure"), ("PREVIOUS_ERROR", "failure"),
   ("SKIPPED", "skipped")]

/-- Python `Enum` member resolution: a name whose value already appeared
binds to the first member with that value (aliasing). -/
def enumResolveAlias (decl : List (String × String)) (name : String) : Option String :=
  match lookupAssoc decl name with
  | none => none
  | some v => (decl.find? (fun pr => pr.2 == v)).map (fun pr => pr.1)

/-- `UnitAnalysisInfo` (analysis_info.py lines 209-262): the per-subject
record, with the field defaults of `__init__`. -/
structure UnitAnalysisInfo where
  wf_input_file_path : PathStr
  group : Option (List String) := none
  analysis_start_time : Option String := none
  analysis_end_time : Option String := none
  output_file_path_list : List PathStr := []
  analysis_status : AnalysisStatus := .WAIT
  properties : List (String × String) := []
  message : String := ""
deriving DecidableEq

/-- `AnalysisInfo` (analysis_info.py lines 38-206): the per-node ledger. -/
structure AnalysisInfo where
  wf_input_file_path_list : List PathStr
  unit_analysis_info_dict : List (PathStr × UnitAnalysisInfo)
  node_analysis_type : NodeAnalysisType
deriving DecidableEq

/-- The cleanup loop of `AnalysisInfo.__init__` (lines 61-67): canonicalize
each `group_info` key and keep only the ones among the declared (already
canonicalized) input paths. -/
def cleanGroupInfo (cwd : List PathStr) (cleanedPaths : List PathStr)
    (group_info : List (PathStr × List String)) : List (PathStr × List String) :=
  group_info.foldl
    (fun acc pr =>
      if cleanedPaths.contains (checkPathFormatCore cwd pr.1)
      then setAssoc acc (checkPathFormatCore cwd pr.1) pr.2
      else acc) []

/-- The record-creation loop of `AnalysisInfo.__init__` (lines 69-73):
one fresh WAITING record per declared input path, with its group looked up in
the cleaned `group_info`. -/
def buildUnitDict (cleanedPaths : List PathStr)
    (cleaned : List (PathStr × List String)) : List (PathStr × UnitAnalysisInfo) :=
  cleanedPaths.foldl
    (fun acc p =>
      setAssoc acc p { wf_input_file_path := p, group := lookupAssoc cleaned p }) []

/-- `AnalysisInfo.__init__` (lines 43-75).  The declared default is
`group_info = None`; in that case `group_info.keys()` raises
`AttributeError` before any record is built — modelled as `Except.error`. -/
def AnalysisInfo.init (cwd : List PathStr) (wf_input_file_path_list : List PathStr)
    (group_info : Option (List (PathStr × List String)))
    (node_analysis_type : NodeAnalysisType) : Except String AnalysisInfo :=
  match group_info with
  | none => .error "AttributeError: NoneType has no attribute keys"
  | some gi =>
    .ok { wf_input_file_path_list := check_path_format_list cwd wf_input_file_path_list,
          unit_analysis_info_dict :=
            buildUnitDict (check_path_format_list cwd wf_input_file_path_list)
              (cleanGroupInfo cwd (check_path_format_list cwd wf_input_file_path_list) gi),
          node_analysis_type := node_analysis_type }

/-- Every getter/setter of `AnalysisInfo` first runs the subject path through
`check_path_format` and then indexes `__unit_analysis_info_dict`; a missing
key is a Python `KeyError`, modelled as `none`. -/
def AnalysisInfo.findUnit (cwd : List PathStr) (info : AnalysisInfo)
    (wf_input_path : PathStr) : Option UnitAnalysisInfo :=
  lookupAssoc info.unit_analysis_info_dict (checkPathFormatCore cwd wf_input_path)

/-- Shared shape of the setters: canonicalize, index, mutate that record. -/
def AnalysisInfo.updateUnit (cwd : List PathStr) (info : AnalysisInfo)
    (wf_input_path : PathStr) (f : UnitAnalysisInfo → UnitAnalysisInfo) :
    Option AnalysisInfo :=
  let key := checkPathFormatCore cwd wf_input_path
  match lookupAssoc info.unit_analysis_info_dict key with
  | none => none
  | some u =>
    some { info with unit_analysis_info_dict :=
             setAssoc info.unit_analysis_info_dict key (f u) }

/-- `get_output_file_paths` (lines 128-130). -/
def AnalysisInfo.get_output_file_paths (cwd : List PathStr) (info : AnalysisInfo)
    (wf_input_path : PathStr) : Option (List PathStr) :=
  (info.findUnit cwd wf_input_path).map (fun u => u.output_file_path_list)

/-- `get_message` (lines 167-170). -/
def AnalysisInfo.get_message (cwd : List PathStr) (info : AnalysisInfo)
    (wf_input_path : PathStr) : Option String :=
  (info.findUnit cwd wf_input_path).map (fun u => u.message)

/-- `get_property` (lines 163-165); a missing property key is a `KeyError`. -/
def AnalysisInfo.get_property (cwd : List PathStr) (info : AnalysisInfo)
    (wf_input_path : PathStr) (key : String) : Option String :=
  match info.findUnit cwd wf_input_path with
  | none => none
  | some u => lookupAssoc u.properties key

/-- The `wf_input_path is None` branch of `get_analysis_status`
(lines 135-139): return PROCESSED at the first record whose status is not
ERROR, and ERROR once the loop over all input paths completes. -/
def aggLoop (d : List (PathStr × UnitAnalysisInfo)) :
    List PathStr → Option AnalysisStatus
  | [] => some .ERROR
  | p :: rest =>
    match lookupAssoc d p with
    | none => none
    | some u =>
      if u.analysis_status ≠ .ERROR then some .PROCESSED else aggLoop d rest

/-- `get_analysis_status()` with no argument: the node-level aggregate. -/
def AnalysisInfo.get_analysis_status_node (info : AnalysisInfo) :
    Option AnalysisStatus :=
  aggLoop info.unit_analysis_info_dict info.wf_input_file_path_list

/-- `get_analysis_status(wf_input_path)`: the per-subject branch
(lines 141-143). -/
def AnalysisInfo.get_analysis_status_unit (cwd : List PathStr)
    (info : AnalysisInfo) (wf_input_path : PathStr) : Option AnalysisStatus :=
  (info.findUnit cwd wf_input_path).map (fun u => u.analysis_status)

/-- `get_analysis_status_message()` with no argument (lines 149-152):
`'error'` if the aggregate is ERROR, else `'success'`. -/
def AnalysisInfo.get_analysis_status_message_node (info : AnalysisInfo) :
    Option String :=
  info.get_analysis_status_node.map
    (fun st => if st = .ERROR then "error" else "success")

/-- `get_analysis_status_message(wf_input_path)` (lines 154-156): the
status member's `.value`. -/
def AnalysisInfo.get_analysis_status_message_unit (cwd : List PathStr)
    (info : AnalysisInfo) (wf_input_path : PathStr) : Option String :=
  (AnalysisInfo.get_analysis_status_unit cwd info wf_input_path).map AnalysisStatus.value

/-- `set_output_file_paths` (lines 186-198): the stored value is itself run
through `check_path_format`. -/
def AnalysisInfo.set_output_file_paths (cwd : List PathStr) (info : AnalysisInfo)
    (wf_input_path : PathStr) (output_file_path_list : List PathStr) :
    Option AnalysisInfo :=
  info.updateUnit cwd wf_input_path
    (fun u => { u with output_file_path_list :=
                  check_path_format_list cwd output_file_path_list })

/-- `set_analysis_status` (lines 200-202). -/
def AnalysisInfo.set_analysis_status (cwd : List PathStr) (info : AnalysisInfo)
    (wf_input_path : PathStr) (analysis_status : AnalysisStatus) :
    Option AnalysisInfo :=
  info.updateUnit cwd wf_input_path (fun u => { u with analysis_status })

/-- `set_message` (lines 208-210). -/
def AnalysisInfo.set_message (cwd : List PathStr) (info : AnalysisInfo)
    (wf_input_path : PathStr) (message : String) : Option AnalysisInfo :=
  info.updateUnit cwd wf_input_path (fun u => { u with message })

/-- `set_analysis_start_time` (lines 172-174); `datetime.now()` is the
explicit `now` argument. -/
def AnalysisInfo.set_analysis_start_time (cwd : List PathStr) (info : AnalysisInfo)
    (wf_input_path : PathStr) (now : String) : Option AnalysisInfo :=
  info.updateUnit cwd wf_input_path (fun u => { u with analysis_start_time := some now })

/-- `set_analysis_end_time` (lines 176-178). -/
def AnalysisInfo.set_analysis_end_time (cwd : List PathStr) (info : AnalysisInfo)
    (wf_input_path : PathStr) (now : String) : Option AnalysisInfo :=
  info.updateUnit cwd wf_input_path (fun u => { u with analysis_end_time := some now })

/-- Invariant the `AnalysisInfo` constructor establishes for the ledgers the
executor handles: no duplicate subjects, every listed path already canonical,
every listed path present in the record dict. -/
def AnalysisInfo.wellFormed (cwd : List PathStr) (info : AnalysisInfo) : Prop :=
  info.wf_input_file_path_list.Nodup ∧
  (∀ p ∈ info.wf_input_file_path_list, checkPathFormatCore cwd p = p) ∧
  (∀ p ∈ info.wf_input_file_path_list,
    (lookupAssoc info.unit_analysis_info_dict p).isSome)

/-- One entry of the per-node resume index (`workflow_info.yaml`
`node_analysis` values, runner.py lines 160-166 and the docstrings in
vbm/utils.py). -/
structure NodeAnalysisEntry where
  output_file_paths : List PathStr
  success : String
  message : String
deriving DecidableEq

/-- `skip_node_analysis` (vbm/utils.py lines 401-438); `os.path.isfile` is
the oracle `isfile`. -/
def skip_node_analysis (isfile : PathStr → Bool) (wf_input_path : PathStr)
    (skip_analyzed : Bool)
    (previous_node_analysis_info : List (PathStr × NodeAnalysisEntry)) : Bool :=
  if !skip_analyzed then false
  else
    match lookupAssoc previous_node_analysis_info wf_input_path with
    | some entry =>
      if entry.success ≠ "success" then false
      else entry.output_file_paths.all isfile
    | none => false

/-- `DEFAULT_ALIGNMENT_PARAMS` (vbm/utils.py line 388). -/
def DEFAULT_ALIGNMENT_PARAMS : List Int := [0, 0, 0, 0, 0, 0, 1, 1, 1]

/-- numpy `(a == b).all()` for the integer parameter vectors the callers
build (element-wise equality of all entries). -/
def ndarrayEqAll : List Int → List Int → Bool
  | [], [] => true
  | a :: as1, b :: bs1 => a == b && ndarrayEqAll as1 bs1
  | _, _ => false

/-- `skip_alignment` (vbm/utils.py lines 352-398). -/
def skip_alignment (isfile : PathStr → Bool) (wf_input_path : PathStr)
    (skip_analyzed : Bool)
    (previous_node_analysis_info : List (PathStr × NodeAnalysisEntry))
    (alignment_params : List Int) : Bool :=
  if !skip_node_analysis isfile wf_input_path skip_analyzed
      previous_node_analysis_info then false
  else if !ndarrayEqAll alignment_params DEFAULT_ALIGNMENT_PARAMS then false
  else true

/-- `remove_from_unused_list` (vbm/utils.py lines 441-452): Python
`list.remove` drops the first occurrence. -/
def remove_from_unused_list (output_subdir_path : PathStr)
    (unused_output_dir_path_list : List PathStr) : List PathStr :=
  if output_subdir_path ∈ unused_output_dir_path_list
  then unused_output_dir_path_list.erase output_subdir_path
  else unused_output_dir_path_list

/-- `delete_directories` (vbm/utils.py lines 117-123) on a directory-set
view of the filesystem: every directory in the list is removed. -/
def delete_directories (dirExists : PathStr → Bool)
    (dir_path_list : List PathStr) : PathStr → Bool :=
  fun p => if dir_path_list.contains p then false else dirExists p

/-- Environment of one subject's processing inside a node loop: the skip
decision, whether the required input exists, whether the opaque computation
returned (rather than raised), the outputs it produced, the two
`datetime.now()` reads, and the `traceback.format_exc()` text. -/
structure SubjectOutcome where
  skip : Bool
  inputFileExists : Bool
  computeOk : Bool
  outputFilePaths : List PathStr
  now_start : String
  now_end : String
  errorText : String
deriving DecidableEq

/-- Effect of one iteration of `process_vbm_alignment`
(vbm_alignment.py lines 166-196) on the subject's own ledger record.
Branches, in source order: skip (set output paths to the input path itself,
SKIPPED); input file missing (`VbmException` raised before the start time is
marked, caught by the bare `except` which only stores the traceback text);
computation succeeded (start time, outputs, PROCESSED); computation raised
(start time was marked, `except` stores the traceback text).  The `finally`
block sets the end time on every branch (Python runs `finally` on
`continue` too). -/
def process_vbm_alignment_record (cwd : List PathStr) (o : SubjectOutcome)
    (wf_input_path : PathStr) (r : UnitAnalysisInfo) : UnitAnalysisInfo :=
  if o.skip then
    { r with output_file_path_list := check_path_format_list cwd [wf_input_path],
             analysis_status := .SKIPPED,
             analysis_end_time := some o.now_end }
  else if !o.inputFileExists then
    { r with message := o.errorText, analysis_end_time := some o.now_end }
  else if o.computeOk then
    { r with analysis_start_time := some o.now_start,
             output_file_path_list := check_path_format_list cwd o.outputFilePaths,
             analysis_status := .PROCESSED,
             analysis_end_time := some o.now_end }
  else
    { r with analysis_start_time := some o.now_start,
             message := o.errorText,
             analysis_end_time := some o.now_end }

/-- Effect of the same iteration on the Derivative GC's unused-directory
list: the skip branch and the success branch call `remove_from_unused_list`
on this subject's output directory; the two failure branches leave the list
untouched. -/
def process_vbm_alignment_unused (o : SubjectOutcome) (outDir : PathStr)
    (unused : List PathStr) : List PathStr :=
  if o.skip then remove_from_unused_list outDir unused
  else if !o.inputFileExists then unused
  else if o.computeOk then remove_from_unused_list outDir unused
  else unused

/-- The whole per-subject loop of `process_vbm_alignment`, tracking only the
unused-directory list. -/
def run_alignment_unused : List (SubjectOutcome × PathStr) → List PathStr → List PathStr
  | [], unused => unused
  | (o, d) :: rest, unused =>
    run_alignment_unused rest (process_vbm_alignment_unused o d unused)

/-- The record `create_new_analysis_info` (analysis_info.py lines 85-99)
creates for one subject: a fresh WAITING record keeping the upstream
record's group and properties. -/
def create_new_unit (p : PathStr) (upstream : UnitAnalysisInfo) : UnitAnalysisInfo :=
  { wf_input_file_path := p, group := upstream.group,
    properties := upstream.properties }

/-- Effect of one iteration of `process_vbm_segment1`
(vbm_segment1.py lines 125-166) on the subject's own output record.
Branches, in source order: skip (carry the upstream output paths, SKIPPED);
upstream record status is ERROR or PREVIOUS_ERROR (status set to
PREVIOUS_ERROR, then `VbmException` raised and caught, storing the traceback
text); input derivatives missing (raise, caught, message only); computation
succeeded; computation raised.  `finally` sets the end time on every
branch. -/
def process_vbm_segment1_record (cwd : List PathStr) (o : SubjectOutcome)
    (upstream : UnitAnalysisInfo) (r : UnitAnalysisInfo) : UnitAnalysisInfo :=
  if o.skip then
    { r with output_file_path_list :=
               check_path_format_list cwd upstream.output_file_path_list,
             analysis_status := .SKIPPED,
             analysis_end_time := some o.now_end }
  else if upstream.analysis_status = AnalysisStatus.ERROR ∨
          upstream.analysis_status = AnalysisStatus.PREVIOUS_ERROR then
    { r with analysis_status := AnalysisStatus.PREVIOUS_ERROR,
             message := o.errorText,
             analysis_end_time := some o.now_end }
  else if !o.inputFileExists then
    { r with message := o.errorText, analysis_end_time := some o.now_end }
  else if o.computeOk then
    { r with analysis_start_time := some o.now_start,
             output_file_path_list := check_path_format_list cwd o.outputFilePaths,
             analysis_status := .PROCESSED,
             analysis_end_time := some o.now_end }
  else
    { r with analysis_start_time := some o.now_start,
             message := o.errorText,
             analysis_end_time := some o.now_end }

/-- `process_vbm_segment1` over all subjects: the output ledger it returns,
one record per subject built by `create_new_analysis_info` and then updated
by the loop. -/
def process_vbm_segment1_info (cwd : List PathStr) (t : NodeAnalysisType)
    (subjects : List (PathStr × UnitAnalysisInfo × SubjectOutcome)) : AnalysisInfo :=
  { wf_input_file_path_list := subjects.map (fun s => s.1),
    unit_analysis_info_dict := subjects.map (fun s =>
      (s.1, process_vbm_segment1_record cwd s.2.2 s.2.1 (create_new_unit s.1 s.2.1))),
    node_analysis_type := t }

/-- The node-failed test after the loop (vbm_segment1.py lines 69-71,
vbm_alignment.py lines 75-77): raise `VbmException` exactly when the
ledger's aggregate status is ERROR. -/
def vbm_node_raises_all_failed (info : AnalysisInfo) : Bool :=
  decide (info.get_analysis_status_node = some AnalysisStatus.ERROR)

/-- One iteration of the `update_workflow_info_file` loop
(runner.py lines 160-166): the resume-index entry written for one subject. -/
def node_info_entry (cwd : List PathStr) (info : AnalysisInfo) (p : PathStr) :
    Option NodeAnalysisEntry :=
  match AnalysisInfo.get_output_file_paths cwd info p,
        AnalysisInfo.get_analysis_status_message_unit cwd info p,
        AnalysisInfo.get_message cwd info p with
  | some ofp, some succ, some msg =>
    some { output_file_paths := ofp, success := succ, message := msg }
  | _, _, _ => none

/-- The `update_workflow_info_file` loop, building the per-node dict
`node_info` (a raised `KeyError` in any getter is `none`). -/
def node_info_build (cwd : List PathStr) (info : AnalysisInfo)
    (acc : List (PathStr × NodeAnalysisEntry)) :
    List PathStr → Option (List (PathStr × NodeAnalysisEntry))
  | [] => some acc
  | p :: rest =>
    match node_info_entry cwd info p with
    | none => none
    | some e => node_info_build cwd info (setAssoc acc p e) rest

/-- The complete `node_info` dict for a ledger. -/
def node_info_of (cwd : List PathStr) (info : AnalysisInfo) :
    Option (List (PathStr × NodeAnalysisEntry)) :=
  node_info_build cwd info [] info.wf_input_file_path_list

/-- The parsed content of `workflow_info.yaml`; the `node_analysis` key may
be absent in a fresh document. -/
structure WorkflowInfo where
  node_analysis : Option (List (String × List (PathStr × NodeAnalysisEntry)))
deriving DecidableEq

/-- Modelled from the spec: `ConfigWriter.write`
(optinist.api.config.config_writer, not under src/) — the Run Recorder
overwrites the document at the given path wholesale. -/
def configWrite {Doc : Type} (store : String → Option Doc) (file_path : String)
    (doc : Doc) : String → Option Doc :=
  fun q => if q = file_path then some doc else store q

/-- Modelled from the spec: `join_filepath`
(optinist.api.utils.filepath_creater, not under src/) joins path components
with a slash separator. -/
def join_filepath (path_list : List String) : String :=
  String.intercalate "/" path_list

def WORKFLOW_INFO_FILE_NAME : String := "workflow_info.yaml"

/-- The read-and-normalize steps of `update_workflow_info_file`
(runner.py lines 153-160): load `workflow_info.yaml` (an absent file reads
as the empty document) and default an absent `node_analysis` key to the
empty dict. -/
def read_node_analysis (store : String → Option WorkflowInfo)
    (file_path : String) : List (String × List (PathStr × NodeAnalysisEntry)) :=
  match store file_path with
  | some w =>
    match w.node_analysis with
    | some m => m
    | none => []
  | none => []

/-- `Runner.update_workflow_info_file` (runner.py lines 144-175): read and
normalize `workflow_info.yaml`, build this node's `node_info` dict from the
ledger, assign it under the node id, and write the whole document back. -/
def Runner.update_workflow_info_file (cwd : List PathStr)
    (store : String → Option WorkflowInfo)
    (workflow_output_path node_id : String) (analysis_info : AnalysisInfo) :
    Option (String → Option WorkflowInfo) :=
  match node_info_of cwd analysis_info with
  | none => none
  | some node_info =>
    some (configWrite store
      (join_filepath [workflow_output_path, WORKFLOW_INFO_FILE_NAME])
      { node_analysis := some (setAssoc
          (read_node_analysis store
            (join_filepath [workflow_output_path, WORKFLOW_INFO_FILE_NAME]))
          node_id node_info) })

/-- Modelled from the spec: `OutputPath`
(optinist.api.workflow.workflow, not under src/), with the fields the
Runner call site fills. -/
structure OutputPath where
  path : PathStr
  type : String
  max_index : Int
deriving DecidableEq

/-- Modelled from the spec: `SubjectAnalysisInfo`
(optinist.api.workflow.workflow, not under src/), with the fields the
Runner call site fills — each field a list, one element per workflow input
file of the subject. -/
structure SubjectAnalysisInfo where
  success : List String
  output_path : List (List PathStr)
  message : List String
deriving DecidableEq

/-- Modelled from the spec: `ExptFunction`
(optinist.api.experiment.experiment, not under src/), with the fields the
Runner call site fills. -/
structure ExptFunction where
  unique_id : String
  name : String
  success : String
  hasNWB : Bool
  message : String
  outputPaths : List (PathStr × OutputPath)
  started_at : Option String
  finished_at : Option String
  subjects : List (String × SubjectAnalysisInfo)
deriving DecidableEq

/-- Modelled from the spec: the fields of `ExptConfig`
(optinist.api.experiment.experiment, not under src/) that
`update_experiment_file` reads and writes. -/
structure ExptConfig where
  success : String
  started_at : Option String
  finished_at : Option String
  function : List (String × ExptFunction)
deriving DecidableEq

/-- `os.path.basename` for POSIX-style paths. -/
def basenameOf (p : PathStr) : PathStr := (splitOnSlash p).getLastD []

/-- The root part of `os.path.splitext` for names with a proper extension
(leading-dot names are not special-cased; the call sites feed `name.nii`
style file names). -/
def splitextRoot (s : PathStr) : PathStr :=
  if '.' ∈ s then ((s.reverse.dropWhile (fun c => c ≠ '.')).drop 1).reverse else s

/-- The per-subject loop of `Runner.update_experiment_file`
(runner.py lines 97-122): accumulate `output_path_dict` (keyed by output
file name without extension) and `subject_dict` (keyed by the
`subject_name` property, appending when the subject already appeared). -/
def expt_dicts_build (cwd : List PathStr) (info : AnalysisInfo)
    (acc_out : List (PathStr × OutputPath))
    (acc_sub : List (String × SubjectAnalysisInfo)) :
    List PathStr →
    Option (List (PathStr × OutputPath) × List (String × SubjectAnalysisInfo))
  | [] => some (acc_out, acc_sub)
  | p :: rest =>
    match AnalysisInfo.get_output_file_paths cwd info p with
    | none => none
    | some output_file_paths =>
      let acc_out2 := output_file_paths.foldl
        (fun a ofp => setAssoc a (splitextRoot (basenameOf ofp))
          { path := ofp, type := "images", max_index := 1 }) acc_out
      match AnalysisInfo.get_property cwd info p "subject_name",
            AnalysisInfo.get_analysis_status_message_unit cwd info p,
            AnalysisInfo.get_message cwd info p with
      | some subject, some succ, some msg =>
        let acc_sub2 := match lookupAssoc acc_sub subject with
          | some s => setAssoc acc_sub subject
              { success := s.success ++ [succ],
                output_path := s.output_path ++ [output_file_paths],
                message := s.message ++ [msg] }
          | none => setAssoc acc_sub subject
              { success := [succ], output_path := [output_file_paths],
                message := [msg] }
        expt_dicts_build cwd info acc_out2 acc_sub2 rest
      | _, _, _ => none

def DIRPATH_EXPERIMENT_YML : String := "experiment.yaml"

/-- `Runner.update_experiment_file` (runner.py lines 87-142): read
`experiment.yaml` (failure to read, or a missing node id, or a missing
`subject_name` property raises — `none`, nothing written), rebuild this
node's `ExptFunction` from the ledger, and write the whole document back. -/
def Runner.update_experiment_file (cwd : List PathStr)
    (store : String → Option ExptConfig)
    (workflow_output_path node_id : String) (analysis_info : AnalysisInfo) :
    Option (String → Option ExptConfig) :=
  match store (join_filepath [workflow_output_path, DIRPATH_EXPERIMENT_YML]) with
  | none => none
  | some expt_config =>
    match expt_dicts_build cwd analysis_info [] []
        analysis_info.wf_input_file_path_list with
    | none => none
    | some (output_path_dict, subject_dict) =>
      match lookupAssoc expt_config.function node_id,
            AnalysisInfo.get_analysis_status_message_node analysis_info with
      | some fn, some message_node =>
        some (configWrite store
          (join_filepath [workflow_output_path, DIRPATH_EXPERIMENT_YML])
          { expt_config with
            function := setAssoc expt_config.function node_id
              { unique_id := fn.unique_id, name := fn.name,
                success := expt_config.success, hasNWB := fn.hasNWB,
                message := message_node, outputPaths := output_path_dict,
                started_at := expt_config.started_at,
                finished_at := expt_config.finished_at,
                subjects := subject_dict } })
      | _, _ => none

/-! Theorems. -/

theorem aggLoop_total (d : List (PathStr × UnitAnalysisInfo)) (l : List PathStr)
    (hp : ∀ p ∈ l, (lookupAssoc d p).isSome) :
    aggLoop d l = some AnalysisStatus.ERROR ∨
    aggLoop d l = some AnalysisStatus.PROCESSED := by
  induction l with
  | nil => exact Or.inl rfl
  | cons p rest ih =>
    obtain ⟨u, hu⟩ := Option.isSome_iff_exists.mp (hp p (List.mem_cons_self p rest))
    simp only [aggLoop, hu]
    by_cases hst : u.analysis_status = AnalysisStatus.ERROR
    · rw [if_neg (fun hne => hne hst)]
      exact ih (fun q hq => hp q (List.mem_cons_of_mem p hq))
    · rw [if_pos hst]
      exact Or.inr rfl

theorem aggLoop_error_iff (d : List (PathStr × UnitAnalysisInfo)) (l : List PathStr)
    (hp : ∀ p ∈ l, (lookupAssoc d p).isSome) (hne : l ≠ []) :
    aggLoop d l = some AnalysisStatus.ERROR ↔
      ∀ p ∈ l, ∀ u, lookupAssoc d p = some u →
        u.analysis_status = AnalysisStatus.ERROR := by
  induction l with
  | nil => exact absurd rfl hne
  | cons p rest ih =>
    obtain ⟨u, hu⟩ := Option.isSome_iff_exists.mp (hp p (List.mem_cons_self p rest))
    simp only [aggLoop, hu]
    by_cases hst : u.analysis_status = AnalysisStatus.ERROR
    · rw [if_neg (fun hne2 => hne2 hst)]
      cases rest with
      | nil =>
        simp only [aggLoop]
        constructor
        · intro _ q hq u' hu'
          rcases List.mem_cons.mp hq with h1 | h1
          · subst h1
            rw [hu] at hu'
            obtain rfl := Option.some.inj hu'
            exact hst
          · simp at h1
        · intro _
          trivial
      | cons r rest2 =>
        rw [ih (fun q hq => hp q (List.mem_cons_of_mem p hq)) (by simp)]
        constructor
        · intro hall q hq u' hu'
          rcases List.mem_cons.mp hq with h1 | h1
          · subst h1
            rw [hu] at hu'
            obtain rfl := Option.some.inj hu'
            exact hst
          · exact hall q h1 u' hu'
        · intro hall q hq u' hu'
          exact hall q (List.mem_cons_of_mem p hq) u' hu'
    · rw [if_pos hst]
      constructor
      · intro h
        cases h
      · intro hall
        exact absurd (hall p (List.mem_cons_self p rest) u hu) hst

/-- C8: the status constants ERROR and PREVIOUS_ERROR are one and the same
value (`'failure'`): Python enum aliasing resolves the name PREVIOUS_ERROR
to the member ERROR, both carry the value `'failure'`, and no record,
comparison or persisted status message can tell a locally failed subject
from one whose failure was inherited from an upstream node. -/
theorem C8_previous_error_is_error :
    AnalysisStatus.PREVIOUS_ERROR = AnalysisStatus.ERROR ∧
    AnalysisStatus.PREVIOUS_ERROR.value = "failure" ∧
    AnalysisStatus.ERROR.value = "failure" ∧
    enumResolveAlias analysisStatusDecl "PREVIOUS_ERROR" = some "ERROR" ∧
    (∀ u : UnitAnalysisInfo,
      u.analysis_status = AnalysisStatus.PREVIOUS_ERROR ↔
        u.analysis_status = AnalysisStatus.ERROR) ∧
    (∀ cwd (info : AnalysisInfo) (p : PathStr),
      AnalysisInfo.set_analysis_status cwd info p AnalysisStatus.PREVIOUS_ERROR =
        AnalysisInfo.set_analysis_status cwd info p AnalysisStatus.ERROR) ∧
    (∀ d l, aggLoop d l = aggLoop d l) :=
  ⟨rfl, rfl, rfl, by decide, fun _ => Iff.rfl, fun _ _ _ => rfl, fun _ _ => rfl⟩

/-- C3: for a ledger with a non-empty subject set (all subjects present in
the record dict, as the constructor guarantees), the node-level aggregate
status is ERROR iff every record's status is ERROR/PREVIOUS_ERROR, and is
PROCESSED otherwise. -/
theorem C3_aggregate_status_law (info : AnalysisInfo)
    (hpresent : ∀ p ∈ info.wf_input_file_path_list,
      (lookupAssoc info.unit_analysis_info_dict p).isSome)
    (hne : info.wf_input_file_path_list ≠ []) :
    (info.get_analysis_status_node = some AnalysisStatus.ERROR ↔
      ∀ p ∈ info.wf_input_file_path_list, ∀ u,
        lookupAssoc info.unit_analysis_info_dict p = some u →
        (u.analysis_status = AnalysisStatus.ERROR ∨
         u.analysis_status = AnalysisStatus.PREVIOUS_ERROR)) ∧
    (¬ (∀ p ∈ info.wf_input_file_path_list, ∀ u,
        lookupAssoc info.unit_analysis_info_dict p = some u →
        (u.analysis_status = AnalysisStatus.ERROR ∨
         u.analysis_status = AnalysisStatus.PREVIOUS_ERROR)) →
      info.get_analysis_status_node = some AnalysisStatus.PROCESSED) := by
  have hiff := aggLoop_error_iff info.unit_analysis_info_dict
    info.wf_input_file_path_list hpresent hne
  have htot := aggLoop_total info.unit_analysis_info_dict
    info.wf_input_file_path_list hpresent
  constructor
  · rw [AnalysisInfo.get_analysis_status_node, hiff]
    constructor
    · intro hall p hp u hu
      exact Or.inl (hall p hp u hu)
    · intro hall p hp u hu
      exact or_self_iff.mp (hall p hp u hu)
  · intro hnall
    rcases htot with h | h
    · exact absurd (fun p hp u hu => Or.inl ((hiff.mp h) p hp u hu)) hnall
    · exact h

theorem ndarrayEqAll_iff (a b : List Int) : ndarrayEqAll a b = true ↔ a = b := by
  induction a generalizing b with
  | nil =>
    cases b with
    | nil => simp [ndarrayEqAll]
    | cons y ys => simp [ndarrayEqAll]
  | cons x xs ih =>
    cases b with
    | nil => simp [ndarrayEqAll]
    | cons y ys =>
      simp only [ndarrayEqAll, Bool.and_eq_true, beq_iff_eq, ih, List.cons.injEq]

/-- C4: the subject-level skip decision is true iff skipping is enabled, a
resume entry exists, its success value equals `'success'`, and every
recorded output path still exists; the alignment variant additionally
requires the alignment parameters to equal the no-op default
`[0,0,0,0,0,0,1,1,1]`; and the decision is false whenever any recorded
output path is missing, regardless of the recorded success value. -/
theorem C4_skip_policy :
    (∀ (isfile : PathStr → Bool) (p : PathStr) (sk : Bool)
        (prev : List (PathStr × NodeAnalysisEntry)),
      skip_node_analysis isfile p sk prev = true ↔
        (sk = true ∧ ∃ e, lookupAssoc prev p = some e ∧
          e.success = "success" ∧ ∀ q ∈ e.output_file_paths, isfile q = true)) ∧
    (∀ (isfile : PathStr → Bool) (p : PathStr) (sk : Bool)
        (prev : List (PathStr × NodeAnalysisEntry)) (ap : List Int),
      skip_alignment isfile p sk prev ap = true ↔
        (skip_node_analysis isfile p sk prev = true ∧
          ap = DEFAULT_ALIGNMENT_PARAMS)) ∧
    (∀ (isfile : PathStr → Bool) (p : PathStr) (sk : Bool)
        (prev : List (PathStr × NodeAnalysisEntry)) e q,
      lookupAssoc prev p = some e → q ∈ e.output_file_paths →
      isfile q = false → skip_node_analysis isfile p sk prev = false) := by
  have hchar : ∀ (isfile : PathStr → Bool) (p : PathStr)
      (prev : List (PathStr × NodeAnalysisEntry)),
      skip_node_analysis isfile p true prev = true ↔
        ∃ e, lookupAssoc prev p = some e ∧ e.success = "success" ∧
          ∀ q ∈ e.output_file_paths, isfile q = true := by
    intro isfile p prev
    cases hlk : lookupAssoc prev p with
    | none =>
      show (match lookupAssoc prev p with
            | some entry => if entry.success ≠ "success" then false
                            else entry.output_file_paths.all isfile
            | none => false) = true ↔ _
      rw [hlk]
      simp [hlk]
    | some e =>
      show (match lookupAssoc prev p with
            | some entry => if entry.success ≠ "success" then false
                            else entry.output_file_paths.all isfile
            | none => false) = true ↔ _
      rw [hlk]
      by_cases hs : e.success = "success"
      · rw [show (match some e with
              | some entry => if entry.success ≠ "success" then false
                              else entry.output_file_paths.all isfile
              | none => false) = (if e.success ≠ "success" then false
                                  else e.output_file_paths.all isfile) from rfl]
        rw [if_neg (fun hne => hne hs)]
        constructor
        · intro hall
          refine ⟨e, rfl, hs, ?_⟩
          intro q hq
          exact List.all_eq_true.mp hall q hq
        · rintro ⟨e', he', hs', hall⟩
          obtain rfl := Option.some.inj he'
          exact List.all_eq_true.mpr (fun q hq => hall q hq)
      · rw [show (match some e with
              | some entry => if entry.success ≠ "success" then false
                              else entry.output_file_paths.all isfile
              | none => false) = (if e.success ≠ "success" then false
                                  else e.output_file_paths.all isfile) from rfl]
        rw [if_pos hs]
        constructor
        · intro h
          cases h
        · rintro ⟨e', he', hs', -⟩
          obtain rfl := Option.some.inj he'
          exact absurd hs' hs
  refine ⟨?base, ?align, ?missing⟩
  case base =>
    intro isfile p sk prev
    cases sk with
    | false =>
      simp [skip_node_analysis]
    | true =>
      rw [hchar isfile p prev]
      simp
  case align =>
    intro isfile p sk prev ap
    by_cases hbase : skip_node_analysis isfile p sk prev = true
    · rw [show skip_alignment isfile p sk prev ap =
            (if !skip_node_analysis isfile p sk prev then false
             else if !ndarrayEqAll ap DEFAULT_ALIGNMENT_PARAMS then false
             else true) from rfl]
      rw [hbase]
      simp only [Bool.not_true, Bool.false_eq_true, if_false]
      by_cases hap : ndarrayEqAll ap DEFAULT_ALIGNMENT_PARAMS = true
      · rw [hap]
        simp only [Bool.not_true, Bool.false_eq_true, if_false]
        simp [hbase, (ndarrayEqAll_iff ap DEFAULT_ALIGNMENT_PARAMS).mp hap]
      · rw [Bool.not_eq_true] at hap
        rw [hap]
        simp only [Bool.not_false, if_true]
        constructor
        · intro h
          cases h
        · intro h
          have := (ndarrayEqAll_iff ap DEFAULT_ALIGNMENT_PARAMS).mpr h.2
          rw [hap] at this
          cases this
    · rw [Bool.not_eq_true] at hbase
      rw [show skip_alignment isfile p sk prev ap =
            (if !skip_node_analysis isfile p sk prev then false
             else if !ndarrayEqAll ap DEFAULT_ALIGNMENT_PARAMS then false
             else true) from rfl]
      rw [hbase]
      simp [hbase]
  case missing =>
    intro isfile p sk prev e q hlk hq hmiss
    cases sk with
    | false =>
      simp [skip_node_analysis]
    | true =>
      rw [Bool.eq_false_iff]
      intro htrue
      obtain ⟨e', he', -, hall⟩ := (hchar isfile p prev).mp htrue
      rw [hlk] at he'
      obtain rfl := Option.some.inj he'
      rw [hall q hq] at hmiss
      cases hmiss

/-- C4 witness: concrete instances through `C4_skip_policy`. -/
theorem C4_skip_policy_witness :
    skip_node_analysis (fun _ => false) ['/', 'a'] true
      [(['/', 'a'], { output_file_paths := [['/', 'o']], success := "success",
                      message := "" })] = false :=
  C4_skip_policy.2.2 (fun _ => false) ['/', 'a'] true
    [(['/', 'a'], { output_file_paths := [['/', 'o']], success := "success",
                    message := "" })]
    { output_file_paths := [['/', 'o']], success := "success", message := "" }
    ['/', 'o'] (by decide) (by decide) rfl

def demoOkUnit : UnitAnalysisInfo :=
  { wf_input_file_path := ['/', 'a'], analysis_status := .PROCESSED }

def demoErrUnit : UnitAnalysisInfo :=
  { wf_input_file_path := ['/', 'b'], analysis_status := .ERROR }

def demoMixInfo : AnalysisInfo :=
  { wf_input_file_path_list := [['/', 'a'], ['/', 'b']],
    unit_analysis_info_dict := [(['/', 'a'], demoOkUnit), (['/', 'b'], demoErrUnit)],
    node_analysis_type := .UNDEFINED }

/-- C3 witness: a mixed ledger (one success, one failure) aggregates to
PROCESSED, through `C3_aggregate_status_law`. -/
theorem C3_aggregate_status_law_witness :
    demoMixInfo.get_analysis_status_node = some AnalysisStatus.PROCESSED :=
  (C3_aggregate_status_law demoMixInfo (by decide) (by decide)).2
    (fun hall => by
      have h := hall ['/', 'a'] (by decide) demoOkUnit (by decide)
      rcases h with h | h <;> exact absurd h (by decide))

theorem cleanGroupInfo_foldl_filter (cwd : List PathStr) (cp : List PathStr)
    (gi : List (PathStr × List String)) (acc : List (PathStr × List String)) :
    gi.foldl
      (fun acc pr =>
        if cp.contains (checkPathFormatCore cwd pr.1)
        then setAssoc acc (checkPathFormatCore cwd pr.1) pr.2
        else acc) acc =
    (gi.filter (fun pr => cp.contains (checkPathFormatCore cwd pr.1))).foldl
      (fun acc pr =>
        if cp.contains (checkPathFormatCore cwd pr.1)
        then setAssoc acc (checkPathFormatCore cwd pr.1) pr.2
        else acc) acc := by
  induction gi generalizing acc with
  | nil => rfl
  | cons pr rest ih =>
    simp only [List.foldl_cons, List.filter_cons]
    by_cases hc : cp.contains (checkPathFormatCore cwd pr.1) = true
    · rw [hc]
      simp only [if_true, List.foldl_cons, hc]
      exact ih (setAssoc acc (checkPathFormatCore cwd pr.1) pr.2)
    · rw [Bool.not_eq_true] at hc
      rw [hc]
      simp only [Bool.false_eq_true, if_false]
      exact ih acc

theorem cleanGroupInfo_filter (cwd : List PathStr) (cp : List PathStr)
    (gi : List (PathStr × List String)) :
    cleanGroupInfo cwd cp gi =
    cleanGroupInfo cwd cp
      (gi.filter (fun pr => cp.contains (checkPathFormatCore cwd pr.1))) :=
  cleanGroupInfo_foldl_filter cwd cp gi []

/-- C10: constructing a ledger with the declared default
`group_info = None` always raises (`AttributeError` on `.keys()`) before any
record is created; with an actual mapping it always succeeds; and
`group_info` entries whose canonicalized path is not among the declared
input paths are silently dropped — the construction result equals the one
from the pre-filtered mapping. -/
theorem C10_constructor_group_info :
    (∀ cwd paths t, AnalysisInfo.init cwd paths none t =
      Except.error "AttributeError: NoneType has no attribute keys") ∧
    (∀ cwd paths gi t, ∃ info,
      AnalysisInfo.init cwd paths (some gi) t = Except.ok info) ∧
    (∀ cwd paths gi t,
      AnalysisInfo.init cwd paths (some gi) t =
      AnalysisInfo.init cwd paths
        (some (gi.filter (fun pr =>
          (check_path_format_list cwd paths).contains
            (checkPathFormatCore cwd pr.1)))) t) :=
  ⟨fun _ _ _ => rfl,
   fun _ _ _ _ => ⟨_, rfl⟩,
   fun cwd paths gi t => by
     simp only [AnalysisInfo.init]
     rw [cleanGroupInfo_filter]⟩

def demoCwd : List PathStr := []

def subjA : PathStr := ['/', 'd', '/', 'a']

def subjB : PathStr := ['/', 'd', '/', 'b']

def subjC : PathStr := ['/', 'd', '/', 'c']

/-- A subject whose required input file is missing (the loop raises
`VbmException` before any computation). -/
def oMissingInput : SubjectOutcome :=
  { skip := false, inputFileExists := false, computeOk := true,
    outputFilePaths := [], now_start := "t0", now_end := "t1",
    errorText := "Traceback" }

/-- A subject whose node function raises. -/
def oComputeFail : SubjectOutcome :=
  { skip := false, inputFileExists := true, computeOk := false,
    outputFilePaths := [], now_start := "t0", now_end := "t1",
    errorText := "Traceback" }

/-- A subject whose node function succeeds. -/
def oSuccess : SubjectOutcome :=
  { skip := false, inputFileExists := true, computeOk := true,
    outputFilePaths := [['/', 'o']], now_start := "t0", now_end := "t1",
    errorText := "" }

/-- A fresh WAITING record, as the ledger constructor creates it. -/
def freshUnit (p : PathStr) : UnitAnalysisInfo := { wf_input_file_path := p }

/-- An upstream record of a successfully processed subject. -/
def upOkA : UnitAnalysisInfo :=
  { wf_input_file_path := subjA, analysis_status := .PROCESSED,
    output_file_path_list := [subjA] }

/-- C1: the claim says an exception during a subject's processing sets the
record status to ERROR; the code's bare `except` only stores the traceback
text, so after a missing-input failure or a node-function failure the
status is still WAIT — never ERROR.  The message is stored and the end time
is set on the failure paths and on the success path (the true parts of the
claim); the ERROR status is the divergence. -/
theorem C1_failure_status_never_error :
    (process_vbm_alignment_record demoCwd oMissingInput subjA
      (freshUnit subjA)).analysis_status = AnalysisStatus.WAIT ∧
    (process_vbm_alignment_record demoCwd oMissingInput subjA
      (freshUnit subjA)).analysis_status ≠ AnalysisStatus.ERROR ∧
    (process_vbm_alignment_record demoCwd oMissingInput subjA
      (freshUnit subjA)).message = "Traceback" ∧
    (process_vbm_alignment_record demoCwd oMissingInput subjA
      (freshUnit subjA)).analysis_end_time = some "t1" ∧
    (process_vbm_alignment_record demoCwd oComputeFail subjA
      (freshUnit subjA)).analysis_status = AnalysisStatus.WAIT ∧
    (process_vbm_alignment_record demoCwd oComputeFail subjA
      (freshUnit subjA)).message = "Traceback" ∧
    (process_vbm_alignment_record demoCwd oComputeFail subjA
      (freshUnit subjA)).analysis_end_time = some "t1" ∧
    (process_vbm_alignment_record demoCwd oSuccess subjA
      (freshUnit subjA)).analysis_end_time = some "t1" ∧
    (process_vbm_segment1_record demoCwd oComputeFail upOkA
      (create_new_unit subjA upOkA)).analysis_status ≠ AnalysisStatus.ERROR := by
  decide

/-- The segment node applied to three subjects that all fail locally (two
node-function failures, one missing input), each with a successfully
processed upstream record. -/
def segDemo : AnalysisInfo :=
  process_vbm_segment1_info demoCwd .SEGMENT1
    [(subjA, upOkA, oComputeFail),
     (subjB, { wf_input_file_path := subjB, analysis_status := .PROCESSED },
      oComputeFail),
     (subjC, { wf_input_file_path := subjC, analysis_status := .PROCESSED },
      oMissingInput)]

/-- C2: the node raises the all-subjects-failed condition iff the aggregate
is ERROR (last conjunct, true of the code); but when all 3 subjects fail
locally in the segment node, their records stay WAIT, the aggregate is
PROCESSED, and no exception is raised — the node returns its output to
downstream nodes, contradicting the claim's Scenario D and the code's own
comment (`Throw an exception if none of the processings were
successful.`). -/
theorem C2_all_subjects_fail_no_raise :
    vbm_node_raises_all_failed segDemo = false ∧
    segDemo.get_analysis_status_node = some AnalysisStatus.PROCESSED ∧
    (∀ pr ∈ segDemo.unit_analysis_info_dict,
      pr.2.analysis_status = AnalysisStatus.WAIT ∧
      pr.2.message = "Traceback") ∧
    (∀ info : AnalysisInfo, vbm_node_raises_all_failed info = true ↔
      info.get_analysis_status_node = some AnalysisStatus.ERROR) :=
  ⟨by decide, by decide, by decide,
   fun info => by simp [vbm_node_raises_all_failed]⟩

theorem mem_remove_from_unused_list {d x : PathStr} {u : List PathStr}
    (h : x ∈ remove_from_unused_list d u) : x ∈ u := by
  unfold remove_from_unused_list at h
  split at h
  · exact (List.erase_sublist d u).subset h
  · exact h

theorem mem_process_vbm_alignment_unused {o : SubjectOutcome} {d x : PathStr}
    {u : List PathStr} (h : x ∈ process_vbm_alignment_unused o d u) : x ∈ u := by
  unfold process_vbm_alignment_unused at h
  split at h
  · exact mem_remove_from_unused_list h
  · split at h
    · exact h
    · split at h
      · exact mem_remove_from_unused_list h
      · exact h

theorem nodup_remove_from_unused_list {d : PathStr} {u : List PathStr}
    (h : u.Nodup) : (remove_from_unused_list d u).Nodup := by
  unfold remove_from_unused_list
  split
  · exact h.erase d
  · exact h

theorem nodup_process_vbm_alignment_unused {o : SubjectOutcome} {d : PathStr}
    {u : List PathStr} (h : u.Nodup) :
    (process_vbm_alignment_unused o d u).Nodup := by
  unfold process_vbm_alignment_unused
  split
  · exact nodup_remove_from_unused_list h
  · split
    · exact h
    · split
      · exact nodup_remove_from_unused_list h
      · exact h

theorem not_mem_remove_from_unused_list_self {d : PathStr} {u : List PathStr}
    (h : u.Nodup) : d ∉ remove_from_unused_list d u := by
  unfold remove_from_unused_list
  split
  · intro hmem
    exact ((List.Nodup.mem_erase_iff h).mp hmem).1 rfl
  · next hc => exact hc

theorem run_alignment_unused_append (a b : List (SubjectOutcome × PathStr))
    (u : List PathStr) :
    run_alignment_unused (a ++ b) u =
      run_alignment_unused b (run_alignment_unused a u) := by
  induction a generalizing u with
  | nil => rfl
  | cons s rest ih =>
    obtain ⟨o, d⟩ := s
    simp only [List.cons_append, run_alignment_unused]
    exact ih _

theorem not_mem_run_alignment_unused {x : PathStr}
    {steps : List (SubjectOutcome × PathStr)} {u : List PathStr}
    (h : x ∉ u) : x ∉ run_alignment_unused steps u := by
  induction steps generalizing u with
  | nil => exact h
  | cons s rest ih =>
    obtain ⟨o, d⟩ := s
    simp only [run_alignment_unused]
    exact ih (fun hmem => h (mem_process_vbm_alignment_unused hmem))

theorem mem_run_alignment_unused {x : PathStr}
    {steps : List (SubjectOutcome × PathStr)} {u : List PathStr}
    (h : x ∈ run_alignment_unused steps u) : x ∈ u := by
  induction steps generalizing u with
  | nil => exact h
  | cons s rest ih =>
    obtain ⟨o, d⟩ := s
    simp only [run_alignment_unused] at h
    exact mem_process_vbm_alignment_unused (ih h)

theorem nodup_run_alignment_unused {steps : List (SubjectOutcome × PathStr)}
    {u : List PathStr} (h : u.Nodup) : (run_alignment_unused steps u).Nodup := by
  induction steps generalizing u with
  | nil => exact h
  | cons s rest ih =>
    obtain ⟨o, d⟩ := s
    simp only [run_alignment_unused]
    exact ih (nodup_process_vbm_alignment_unused h)

/-- C6: a directory confirmed during the run (by a skip or by a successful
computation at its subject's step) is removed from the unused list there
and no later step puts it back; the list only ever shrinks; and the
end-of-node `delete_directories` call therefore leaves a confirmed
directory untouched even when later subjects fail. -/
theorem C6_confirmed_dir_never_deleted (u0 : List PathStr)
    (pre post : List (SubjectOutcome × PathStr)) (o : SubjectOutcome)
    (d : PathStr) (hnd : u0.Nodup)
    (hconfirm : o.skip = true ∨
      (o.inputFileExists = true ∧ o.computeOk = true)) :
    d ∉ run_alignment_unused (pre ++ (o, d) :: post) u0 ∧
    (∀ x ∈ run_alignment_unused (pre ++ (o, d) :: post) u0, x ∈ u0) ∧
    (∀ dirExists : PathStr → Bool,
      delete_directories dirExists
        (run_alignment_unused (pre ++ (o, d) :: post) u0) d = dirExists d) := by
  have hu1 : (run_alignment_unused pre u0).Nodup := nodup_run_alignment_unused hnd
  have hmain : d ∉ run_alignment_unused (pre ++ (o, d) :: post) u0 := by
    rw [run_alignment_unused_append]
    show d ∉ run_alignment_unused post
      (process_vbm_alignment_unused o d (run_alignment_unused pre u0))
    apply not_mem_run_alignment_unused
    by_cases hsk : o.skip = true
    · unfold process_vbm_alignment_unused
      rw [hsk]
      simp only [if_true]
      exact not_mem_remove_from_unused_list_self hu1
    · rcases hconfirm with h | ⟨hin, hok⟩
      · exact absurd h hsk
      · unfold process_vbm_alignment_unused
        rw [Bool.not_eq_true] at hsk
        rw [hsk, hin, hok]
        simp only [Bool.false_eq_true, if_false, Bool.not_true, if_true]
        exact not_mem_remove_from_unused_list_self hu1
  refine ⟨hmain, ?_, ?_⟩
  · intro x hx
    exact mem_run_alignment_unused hx
  · intro dirExists
    unfold delete_directories
    rw [if_neg (by
      intro hc
      exact hmain (by simpa using hc))]

/-- C6 witness: a directory confirmed by a successful computation survives a
later subject's failure, through `C6_confirmed_dir_never_deleted`. -/
theorem C6_confirmed_dir_never_deleted_witness :
    ['/', 'x'] ∉ run_alignment_unused
      ([] ++ (oSuccess, ['/', 'x']) :: [(oComputeFail, ['/', 'y'])])
      [['/', 'x'], ['/', 'y']] :=
  (C6_confirmed_dir_never_deleted [['/', 'x'], ['/', 'y']] []
    [(oComputeFail, ['/', 'y'])] oSuccess ['/', 'x'] (by decide)
    (Or.inr ⟨rfl, rfl⟩)).1

theorem node_info_build_cons (cwd : List PathStr) (info : AnalysisInfo)
    (acc : List (PathStr × NodeAnalysisEntry)) (p : PathStr)
    (rest : List PathStr) (e : NodeAnalysisEntry)
    (he : node_info_entry cwd info p = some e) :
    node_info_build cwd info acc (p :: rest) =
      node_info_build cwd info (setAssoc acc p e) rest := by
  simp only [node_info_build, he]

theorem node_info_build_append (cwd : List PathStr) (info : AnalysisInfo)
    (acc : List (PathStr × NodeAnalysisEntry)) (l1 l2 : List PathStr) :
    node_info_build cwd info acc (l1 ++ l2) =
      (node_info_build cwd info acc l1).bind
        (fun m => node_info_build cwd info m l2) := by
  induction l1 generalizing acc with
  | nil => rfl
  | cons p rest ih =>
    simp only [List.cons_append, node_info_build]
    cases node_info_entry cwd info p with
    | none => rfl
    | some e => exact ih _

theorem skip_node_analysis_of_success_ne (isfile : PathStr → Bool)
    (p : PathStr) (prev : List (PathStr × NodeAnalysisEntry))
    (e : NodeAnalysisEntry) (sk : Bool)
    (hprev : lookupAssoc prev p = some e) (hne : e.success ≠ "success") :
    skip_node_analysis isfile p sk prev = false := by
  cases sk with
  | false => simp [skip_node_analysis]
  | true =>
    show (match lookupAssoc prev p with
          | some entry => if entry.success ≠ "success" then false
                          else entry.output_file_paths.all isfile
          | none => false) = false
    rw [hprev]
    show (if e.success ≠ "success" then false
          else e.output_file_paths.all isfile) = false
    rw [if_pos hne]

theorem node_info_build_lookup_preserved (cwd : List PathStr)
    (info : AnalysisInfo) (p : PathStr) (e : NodeAnalysisEntry)
    (m : List (PathStr × NodeAnalysisEntry)) :
    ∀ (l : List PathStr) (acc : List (PathStr × NodeAnalysisEntry)),
      p ∉ l → lookupAssoc acc p = some e →
      node_info_build cwd info acc l = some m → lookupAssoc m p = some e := by
  intro l
  induction l with
  | nil =>
    intro acc _ hacc h
    simp only [node_info_build] at h
    obtain rfl := Option.some.inj h
    exact hacc
  | cons q rest ih =>
    intro acc hp hacc h
    simp only [node_info_build] at h
    cases hq : node_info_entry cwd info q with
    | none =>
      rw [hq] at h
      cases h
    | some e2 =>
      rw [hq] at h
      refine ih (setAssoc acc q e2)
        (fun hmem => hp (List.mem_cons_of_mem q hmem)) ?_ h
      rw [lookupAssoc_setAssoc_ne]
      · exact hacc
      · exact fun hpq => hp (hpq ▸ List.mem_cons_self q rest)

/-- C9: a subject whose final record status is SKIPPED has `'skipped'` (not
`'success'`) recorded as its resume-index success value, so the skip
decision for that subject in the next run returns false. -/
theorem C9_skipped_not_resumed (cwd : List PathStr) (info : AnalysisInfo)
    (p : PathStr) (u : UnitAnalysisInfo)
    (hwf : info.wellFormed cwd) (hp : p ∈ info.wf_input_file_path_list)
    (hu : lookupAssoc info.unit_analysis_info_dict p = some u)
    (hsk : u.analysis_status = AnalysisStatus.SKIPPED) :
    ∃ e, node_info_entry cwd info p = some e ∧ e.success = "skipped" ∧
      (∀ m, node_info_of cwd info = some m → lookupAssoc m p = some e) ∧
      (∀ (isfile : PathStr → Bool) (sk : Bool)
          (prev : List (PathStr × NodeAnalysisEntry)),
        lookupAssoc prev p = some e →
        skip_node_analysis isfile p sk prev = false) := by
  have hcanon : checkPathFormatCore cwd p = p := hwf.2.1 p hp
  have h1 : AnalysisInfo.get_output_file_paths cwd info p =
      some u.output_file_path_list := by
    unfold AnalysisInfo.get_output_file_paths AnalysisInfo.findUnit
    rw [hcanon, hu]
    rfl
  have h2 : AnalysisInfo.get_analysis_status_message_unit cwd info p =
      some u.analysis_status.value := by
    unfold AnalysisInfo.get_analysis_status_message_unit
      AnalysisInfo.get_analysis_status_unit AnalysisInfo.findUnit
    rw [hcanon, hu]
    rfl
  have h3 : AnalysisInfo.get_message cwd info p = some u.message := by
    unfold AnalysisInfo.get_message AnalysisInfo.findUnit
    rw [hcanon, hu]
    rfl
  have hent : node_info_entry cwd info p =
      some { output_file_paths := u.output_file_path_list,
             success := u.analysis_status.value, message := u.message } := by
    unfold node_info_entry
    rw [h1, h2, h3]
  have hsuccval : u.analysis_status.value = "skipped" := by
    rw [hsk]
    rfl
  refine ⟨{ output_file_paths := u.output_file_path_list,
            success := u.analysis_status.value, message := u.message },
    hent, hsuccval, ?_, ?_⟩
  · intro m hm
    obtain ⟨l1, l2, hsplit⟩ := List.append_of_mem hp
    have hnd := hwf.1
    rw [hsplit] at hnd
    have hpl2 : p ∉ l2 := by
      have h2nd : (p :: l2).Nodup :=
        List.Nodup.sublist (List.sublist_append_right l1 (p :: l2)) hnd
      exact (List.nodup_cons.mp h2nd).1
    unfold node_info_of at hm
    rw [hsplit, node_info_build_append] at hm
    cases hb1 : node_info_build cwd info [] l1 with
    | none =>
      rw [hb1] at hm
      cases hm
    | some m1 =>
      rw [hb1] at hm
      rw [Option.some_bind] at hm
      rw [node_info_build_cons cwd info m1 p l2 _ hent] at hm
      exact node_info_build_lookup_preserved cwd info p _ m l2 _ hpl2
        (lookupAssoc_setAssoc_self m1 p _) hm
  · intro isfile sk prev hprev
    exact skip_node_analysis_of_success_ne isfile p prev _ sk hprev
      (by
        show u.analysis_status.value ≠ "success"
        rw [hsuccval]
        decide)

def demoSkipUnit : UnitAnalysisInfo :=
  { wf_input_file_path := subjA, analysis_status := .SKIPPED,
    output_file_path_list := [subjA] }

def demoSkipInfo : AnalysisInfo :=
  { wf_input_file_path_list := [subjA],
    unit_analysis_info_dict := [(subjA, demoSkipUnit)],
    node_analysis_type := .SEGMENT1 }

/-- C9 witness: a concrete skipped subject is not skipped again next run,
through `C9_skipped_not_resumed`. -/
theorem C9_skipped_not_resumed_witness :
    skip_node_analysis (fun _ => true) subjA true
      [(subjA, { output_file_paths := [subjA], success := "skipped",
                 message := "" })] = false := by
  obtain ⟨e, hent, hsucc, -, hskip⟩ :=
    C9_skipped_not_resumed demoCwd demoSkipInfo subjA demoSkipUnit
      ⟨by decide, by decide, by decide⟩ (by decide) (by decide) rfl
  have he : e = { output_file_paths := [subjA], success := "skipped",
                  message := "" } := by
    have h2 : node_info_entry demoCwd demoSkipInfo subjA =
        some { output_file_paths := [subjA], success := "skipped",
               message := "" } := by decide
    rw [hent] at h2
    exact Option.some.inj h2
  rw [← he]
  exact hskip (fun _ => true) true [(subjA, e)] (by simp [lookupAssoc])

/-- C5: recording one node's outcome into the run documents replaces only
that node's entry: after `update_workflow_info_file` the reloaded resume
index maps every other node id to its previous content and the updated node
to the freshly built `node_info`; after `update_experiment_file` the
reloaded manifest's `function` dict agrees with the previous one on every
other node id; and no other stored path is touched by either write. -/
theorem C5_record_replaces_only_this_node (cwd : List PathStr)
    (storeW : String → Option WorkflowInfo)
    (storeE : String → Option ExptConfig)
    (wpath node_id : String) (info : AnalysisInfo) :
    (∀ store2,
      Runner.update_workflow_info_file cwd storeW wpath node_id info =
        some store2 →
      (∀ k, k ≠ node_id →
        lookupAssoc (read_node_analysis store2
          (join_filepath [wpath, WORKFLOW_INFO_FILE_NAME])) k =
        lookupAssoc (read_node_analysis storeW
          (join_filepath [wpath, WORKFLOW_INFO_FILE_NAME])) k) ∧
      (∀ ni, node_info_of cwd info = some ni →
        lookupAssoc (read_node_analysis store2
          (join_filepath [wpath, WORKFLOW_INFO_FILE_NAME])) node_id =
          some ni) ∧
      (∀ q, q ≠ join_filepath [wpath, WORKFLOW_INFO_FILE_NAME] →
        store2 q = storeW q)) ∧
    (∀ store2,
      Runner.update_experiment_file cwd storeE wpath node_id info =
        some store2 →
      ∃ cfg cfg2,
        storeE (join_filepath [wpath, DIRPATH_EXPERIMENT_YML]) = some cfg ∧
        store2 (join_filepath [wpath, DIRPATH_EXPERIMENT_YML]) = some cfg2 ∧
        (∀ k, k ≠ node_id →
          lookupAssoc cfg2.function k = lookupAssoc cfg.function k) ∧
        (∀ q, q ≠ join_filepath [wpath, DIRPATH_EXPERIMENT_YML] →
          store2 q = storeE q)) := by
  constructor
  · intro store2 h
    unfold Runner.update_workflow_info_file at h
    cases hni : node_info_of cwd info with
    | none =>
      rw [hni] at h
      cases h
    | some ni =>
      rw [hni] at h
      obtain rfl := Option.some.inj h
      have hread : read_node_analysis
          (configWrite storeW (join_filepath [wpath, WORKFLOW_INFO_FILE_NAME])
            { node_analysis := some (setAssoc
                (read_node_analysis storeW
                  (join_filepath [wpath, WORKFLOW_INFO_FILE_NAME]))
                node_id ni) })
          (join_filepath [wpath, WORKFLOW_INFO_FILE_NAME]) =
          setAssoc (read_node_analysis storeW
            (join_filepath [wpath, WORKFLOW_INFO_FILE_NAME])) node_id ni := by
        unfold read_node_analysis configWrite
        rw [if_pos rfl]
      refine ⟨?_, ?_, ?_⟩
      · intro k hk
        rw [hread]
        exact lookupAssoc_setAssoc_ne _ _ _ _ hk
      · intro ni2 hni2
        obtain rfl := Option.some.inj hni2
        rw [hread]
        exact lookupAssoc_setAssoc_self _ _ _
      · intro q hq
        unfold configWrite
        rw [if_neg hq]
  · intro store2 h
    unfold Runner.update_experiment_file at h
    cases hse : storeE (join_filepath [wpath, DIRPATH_EXPERIMENT_YML]) with
    | none =>
      rw [hse] at h
      cases h
    | some cfg =>
      rw [hse] at h
      dsimp only at h
      cases hdicts : expt_dicts_build cwd info [] []
          info.wf_input_file_path_list with
      | none =>
        rw [hdicts] at h
        cases h
      | some dicts =>
        rw [hdicts] at h
        obtain ⟨output_path_dict, subject_dict⟩ := dicts
        dsimp only at h
        cases hfn : lookupAssoc cfg.function node_id with
        | none =>
          rw [hfn] at h
          cases h
        | some fn =>
          rw [hfn] at h
          cases hmsg : AnalysisInfo.get_analysis_status_message_node info with
          | none =>
            rw [hmsg] at h
            cases h
          | some message_node =>
            rw [hmsg] at h
            dsimp only at h
            obtain rfl := Option.some.inj h
            exact ⟨cfg,
              ({ cfg with
                 function := setAssoc cfg.function node_id
                   { unique_id := fn.unique_id, name := fn.name,
                     success := cfg.success, hasNWB := fn.hasNWB,
                     message := message_node, outputPaths := output_path_dict,
                     started_at := cfg.started_at,
                     finished_at := cfg.finished_at,
                     subjects := subject_dict } }),
              rfl,
              by unfold configWrite; rw [if_pos rfl],
              fun k hk => lookupAssoc_setAssoc_ne _ _ _ _ hk,
              fun q hq => by unfold configWrite; rw [if_neg hq]⟩

def demoStoreW : String → Option WorkflowInfo := fun _ => none

def demoUpdatedW : String → Option WorkflowInfo :=
  (Runner.update_workflow_info_file demoCwd demoStoreW "out" "n1"
    demoSkipInfo).getD (fun _ => none)

/-- C5 witness: a concrete resume-index update leaves another node id's
entry unchanged, through `C5_record_replaces_only_this_node`. -/
theorem C5_record_replaces_only_this_node_witness :
    lookupAssoc (read_node_analysis demoUpdatedW
      (join_filepath ["out", WORKFLOW_INFO_FILE_NAME])) "n2" =
    lookupAssoc (read_node_analysis demoStoreW
      (join_filepath ["out", WORKFLOW_INFO_FILE_NAME])) "n2" :=
  ((C5_record_replaces_only_this_node demoCwd demoStoreW (fun _ => none)
      "out" "n1" demoSkipInfo).1 demoUpdatedW rfl).1 "n2" (by decide)

/-- The path `/x/a\..`: on a POSIX filesystem the file name `a\..` contains
a literal backslash, which `resolve` keeps but `.replace('\\', '/')` then
turns into a separator. -/
def cexPath : PathStr := ['/', 'x', '/', 'a', '\\', '.', '.']

/-- C7 counterexample: `check_path_format` is not idempotent as stated —
canonicalizing `/x/a\..` yields `/x/a/..`, and canonicalizing that again
yields `/x`, a different string. -/
theorem C7_canonicalization_counterexample :
    checkPathFormatCore [] cexPath = ['/', 'x', '/', 'a', '/', '.', '.'] ∧
    checkPathFormatCore [] (checkPathFormatCore [] cexPath) = ['/', 'x'] ∧
    checkPathFormatCore [] (checkPathFormatCore [] cexPath) ≠
      checkPathFormatCore [] cexPath := by
  decide

/-- C7 (amended): canonicalization is idempotent for every path free of
literal backslash characters (with a well-formed working directory), and
every ledger getter/setter canonicalizes its subject-path argument before
lookup, so two spellings with the same canonical form address the same
single record. -/
theorem C7_canonicalization_idem_and_ops (cwd : List PathStr)
    (p q : PathStr) (info : AnalysisInfo) (st : AnalysisStatus) (msg : String)
    (hcwd : wfCwd cwd) (hp : '\\' ∉ p) :
    checkPathFormatCore cwd (checkPathFormatCore cwd p) =
      checkPathFormatCore cwd p ∧
    (checkPathFormatCore cwd p = checkPathFormatCore cwd q →
      AnalysisInfo.findUnit cwd info p = AnalysisInfo.findUnit cwd info q ∧
      AnalysisInfo.get_output_file_paths cwd info p =
        AnalysisInfo.get_output_file_paths cwd info q ∧
      AnalysisInfo.get_analysis_status_unit cwd info p =
        AnalysisInfo.get_analysis_status_unit cwd info q ∧
      AnalysisInfo.get_message cwd info p =
        AnalysisInfo.get_message cwd info q ∧
      AnalysisInfo.set_analysis_status cwd info p st =
        AnalysisInfo.set_analysis_status cwd info q st ∧
      AnalysisInfo.set_message cwd info p msg =
        AnalysisInfo.set_message cwd info q msg) := by
  refine ⟨checkPathFormatCore_idem hcwd hp, ?_⟩
  intro hpq
  unfold AnalysisInfo.findUnit AnalysisInfo.get_output_file_paths
    AnalysisInfo.get_analysis_status_unit AnalysisInfo.get_message
    AnalysisInfo.set_analysis_status AnalysisInfo.set_message
    AnalysisInfo.updateUnit AnalysisInfo.findUnit
  rw [hpq]
  exact ⟨rfl, rfl, rfl, rfl, rfl, rfl⟩

/-- C7 witness: `//a` and `/a` canonicalize alike and address the same
record, through `C7_canonicalization_idem_and_ops`. -/
theorem C7_canonicalization_idem_and_ops_witness :
    checkPathFormatCore [] (checkPathFormatCore [] ['/', '/', 'a']) =
      checkPathFormatCore [] ['/', '/', 'a'] ∧
    AnalysisInfo.findUnit [] demoMixInfo ['/', '/', 'a'] =
      AnalysisInfo.findUnit [] demoMixInfo ['/', 'a'] :=
  have h := C7_canonicalization_idem_and_ops [] ['/', '/', 'a'] ['/', 'a']
    demoMixInfo .PROCESSED "m" (fun s hs => absurd hs (List.not_mem_nil s))
    (by decide)
  ⟨h.1, (h.2 (by decide)).1⟩

/-- C2 witness: concrete instances through `C2_all_subjects_fail_no_raise`. -/
theorem C2_all_subjects_fail_no_raise_witness :
    (subjA, process_vbm_segment1_record demoCwd oComputeFail upOkA
      (create_new_unit subjA upOkA)).2.analysis_status =
        AnalysisStatus.WAIT ∧
    (vbm_node_raises_all_failed segDemo = true ↔
      segDemo.get_analysis_status_node = some AnalysisStatus.ERROR) :=
  ⟨(C2_all_subjects_fail_no_raise.2.2.1 _ (by decide)).1,
   C2_all_subjects_fail_no_raise.2.2.2 segDemo⟩

end MRIStudio
